import Mathlib

set_option maxRecDepth 8000

/-!
Verification of the AZF question extractor (extract_questions.py).

The Python source works on strings with the `re` module; here every regular
expression of the source is specialised to an executable character-list
scanner with the exact matching semantics of the Python pattern
(leftmost, non-overlapping matches; greedy quantifiers; IGNORECASE where
the source passes that flag; the dot never matching a newline unless
DOTALL is set). Strings are modelled as Lean strings, processed through
their character lists; ASCII case folding models Python lowercasing on
the alphabets that occur in the patterns.
-/

namespace AZF

/-- Python whitespace class for the s-escape and for str.strip, ASCII range. -/
def pyIsSpace (c : Char) : Bool :=
  c == ' ' || c == '\t' || c == '\n' || c == '\r' || c == '\x0b' || c == '\x0c'

/-- Python str.strip on a character list: drop whitespace at both ends. -/
def pyStripL (cs : List Char) : List Char :=
  ((cs.dropWhile pyIsSpace).reverse.dropWhile pyIsSpace).reverse

/-- Python str.rstrip on a character list. -/
def pyRStrip (cs : List Char) : List Char :=
  (cs.reverse.dropWhile pyIsSpace).reverse

/-- Case-insensitive test that pat (stored lowercase) begins the list,
modelling a re.IGNORECASE literal match at the current position. -/
def ciStarts : List Char → List Char → Bool
  | [], _ => true
  | _ :: _, [] => false
  | p :: ps, c :: cs => p == c.toLower && ciStarts ps cs

/-- Case-insensitive substring test: some position of the list starts with pat. -/
def ciHasSub (pat : List Char) : List Char → Bool
  | [] => ciStarts pat []
  | c :: cs => ciStarts pat (c :: cs) || ciHasSub pat cs

/-- State of the scanner for the question-number split.  The Python source
splits the document with the pattern group-of-digits-after-line-start
followed by one or more whitespace characters, capturing the digits;
scan is plain text accumulation, num is a tentative match (buf holds the
consumed newline, ds the digits so far), ws consumes the greedy
whitespace run that ends a successful match. -/
inductive SpSt where
  | scan (acc : List Char)
  | num (acc buf ds : List Char)
  | ws
deriving Repr, DecidableEq

/-- Final piece emitted when the input ends, per scanner state. -/
def spFinish : SpSt → List String
  | .scan acc => [acc.asString]
  | .num acc buf ds => [(acc ++ buf ++ ds).asString]
  | .ws => [""]

/-- One-pass scanner implementing re.split of the question-number pattern
with one capture group: the result alternates unmatched text and captured
digit runs, exactly as the Python list of parts. -/
def spRun : SpSt → List Char → List String
  | st, [] => spFinish st
  | .scan acc, c :: cs =>
      if c == '\n' then spRun (.num acc [c] []) cs
      else spRun (.scan (acc ++ [c])) cs
  | .num acc buf ds, c :: cs =>
      if c.isDigit then spRun (.num acc buf (ds ++ [c])) cs
      else if pyIsSpace c && !ds.isEmpty then
        acc.asString :: ds.asString :: spRun .ws cs
      else if c == '\n' then spRun (.num (acc ++ buf ++ ds) [c] []) cs
      else spRun (.scan (acc ++ buf ++ ds ++ [c])) cs
  | .ws, c :: cs =>
      if pyIsSpace c then spRun .ws cs
      else spRun (.scan [c]) cs

/-- The part list produced by the re.split call of the source (line 146):
initial state is a tentative match at position zero, because the start
anchor alternative allows digits at the very beginning of the text. -/
def pySplit (cs : List Char) : List String :=
  spRun (.num [] [] []) cs

/-- State for the remove-to-end-of-line scrubbers: scanning, skipping the
rest of a matched literal, or skipping to the next newline. -/
inductive RmSt where
  | scan
  | skipLit (k : Nat)
  | skipEol
deriving Repr, DecidableEq

/-- Successor state while k more literal characters remain to be dropped. -/
def rmNext (k : Nat) : RmSt :=
  if k = 0 then .skipEol else .skipLit k

/-- Scanner for re.sub of pattern literal-then-lazy-dot-run with a
lookahead for newline-or-end, IGNORECASE: every occurrence of the literal
is removed together with the rest of its line, the newline kept. -/
def rmEolRun (pat : List Char) : RmSt → List Char → List Char
  | _, [] => []
  | .scan, c :: cs =>
      if ciStarts pat (c :: cs) then rmEolRun pat (rmNext (pat.length - 1)) cs
      else c :: rmEolRun pat .scan cs
  | .skipLit k, _ :: cs => rmEolRun pat (rmNext (k - 1)) cs
  | .skipEol, c :: cs =>
      if c == '\n' then c :: rmEolRun pat .scan cs
      else rmEolRun pat .skipEol cs

/-- re.sub of literal-then-greedy-dot-run with DOTALL: everything from the
first case-insensitive occurrence of the literal to the end of the string
is removed. -/
def truncAtCI (pat : List Char) : List Char → List Char
  | [] => []
  | c :: cs => if ciStarts pat (c :: cs) then [] else c :: truncAtCI pat cs

/-- Literal pieces of the page-footer pattern of source line 141. -/
def p4litA : List Char := "seite / page ".data

/-- Second literal piece of the page-footer pattern. -/
def p4litB : List Char := " von / of ".data

/-- Length of a match of the footer pattern Seite-page-digits-von-of-digits
at the head of the list, if any (IGNORECASE; digit runs greedy). -/
def p4MatchLen (cs : List Char) : Option Nat :=
  if ciStarts p4litA cs then
    let r1 := cs.drop p4litA.length
    let d1 := r1.takeWhile Char.isDigit
    if d1.isEmpty then none
    else
      let r2 := r1.drop d1.length
      if ciStarts p4litB r2 then
        let r3 := r2.drop p4litB.length
        let d2 := r3.takeWhile Char.isDigit
        if d2.isEmpty then none
        else some (p4litA.length + d1.length + p4litB.length + d2.length)
      else none
  else none

/-- State for the page-footer remover: scanning or dropping k more chars. -/
inductive P4St where
  | scan
  | skip (k : Nat)
deriving Repr, DecidableEq

/-- Successor state while k more matched characters remain to be dropped. -/
def p4Next (k : Nat) : P4St :=
  if k = 0 then .scan else .skip k

/-- Scanner for re.sub of the page-footer pattern: each leftmost
non-overlapping match is removed. -/
def p4Run : P4St → List Char → List Char
  | _, [] => []
  | .scan, c :: cs =>
      match p4MatchLen (c :: cs) with
      | some n => p4Run (p4Next (n - 1)) cs
      | none => c :: p4Run .scan cs
  | .skip k, _ :: cs => p4Run (p4Next (k - 1)) cs

/-- Lowercase literal of the Stand-As-at footer line. -/
def standPat : List Char := "stand / as at::".data

/-- Lowercase literal of the richtige-Antwort footer line. -/
def richtigePat : List Char := "richtige antwort immer a /".data

/-- Lowercase literal of the correct-answer footer line. -/
def correctAlwaysPat : List Char := "correct answer always a".data

/-- Lowercase literal of the Pruefungsfragen footer line, with the mangled
bytes exactly as they appear in the source. -/
def pruefPat : List Char := "pr√ºfungsfragen im pr√ºfungsteil".data

/-- Lowercase literal of the block-level Seite-page scrubber (line 164). -/
def seitePagePat : List Char := "seite / page".data

/-- Whole-document cleanup of source lines 138-142: the five footer
substitutions applied in order. -/
def cleanText (cs : List Char) : List Char :=
  rmEolRun pruefPat .scan
    (p4Run .scan
      (rmEolRun correctAlwaysPat .scan
        (rmEolRun richtigePat .scan
          (rmEolRun standPat .scan cs))))

/-- Per-block cleanup of source lines 163-164: truncate at the first
Stand-As-at occurrence (DOTALL), then remove Seite-page line tails. -/
def blockClean (cs : List Char) : List Char :=
  rmEolRun seitePagePat .scan (truncAtCI standPat cs)

/-- str.split of a newline character, keeping empty pieces. -/
def splitLinesGo (acc : List Char) : List Char → List (List Char)
  | [] => [acc.reverse]
  | c :: cs =>
      if c == '\n' then acc.reverse :: splitLinesGo [] cs
      else splitLinesGo (c :: acc) cs

/-- Anchored match of the page-number pattern digits-slash-digits with
optional whitespace around the slash, as in the line filter of line 170. -/
def numSlashNum (cs : List Char) : Bool :=
  let d1 := cs.takeWhile Char.isDigit
  if d1.isEmpty then false
  else
    match (cs.drop d1.length).dropWhile pyIsSpace with
    | '/' :: r2 => !(((r2.dropWhile pyIsSpace).takeWhile Char.isDigit).isEmpty)
    | _ => false

/-- Line filter of source line 170: drop lines that begin with Seite, page,
or a digits-slash-digits page marker (IGNORECASE, anchored at the start). -/
def lineFilter170 (l : String) : Bool :=
  ciStarts "seite".data l.data || ciStarts "page".data l.data || numSlashNum l.data

/-- Header and footer prefix test of lines 181 and 233, with six keywords. -/
def isHdrA (l : String) : Bool :=
  ciStarts "stand".data l.data || ciStarts "richtige".data l.data ||
  ciStarts "correct".data l.data || ciStarts "pr√ºfungsfragen".data l.data ||
  ciStarts "seite".data l.data || ciStarts "page".data l.data

/-- Footer prefix test of lines 195 and 266, with five keywords. -/
def isHdrB (l : String) : Bool :=
  ciStarts "stand".data l.data || ciStarts "richtige".data l.data ||
  ciStarts "correct".data l.data || ciStarts "seite".data l.data ||
  ciStarts "page".data l.data

/-- Anchored case-sensitive match of letter, one or more whitespace, one
non-whitespace character, used by the boundary detector (lines 185, 199). -/
def detMatch (ch : Char) (l : String) : Bool :=
  match l.data with
  | [] => false
  | c :: rest =>
      let ws := rest.takeWhile pyIsSpace
      c == ch && !ws.isEmpty && !((rest.drop ws.length).isEmpty)

/-- Backtracking search for the whitespace-plus-then-dot-plus tail of the
option-line pattern: the greedy whitespace run gives back characters until
the dot class (anything but a newline) can match once; the captured group
is the dot run from that point. -/
def wsDotSearch (cs : List Char) : Nat → Option (List Char)
  | 0 => none
  | k + 1 =>
      match (cs.drop (k + 1)).head? with
      | some c =>
          if c == '\n' then wsDotSearch cs k
          else some ((cs.drop (k + 1)).takeWhile (fun d => d != '\n'))
      | none => wsDotSearch cs k

/-- Anchored match of the option-line pattern capital-letter-A-to-D,
whitespace run, captured content, of source line 250; returns the letter
and the captured content. -/
def letterLineMatch (l : String) : Option (Char × String) :=
  match l.data with
  | [] => none
  | c :: rest =>
      if c == 'A' || c == 'B' || c == 'C' || c == 'D' then
        let k0 := (rest.takeWhile pyIsSpace).length
        if k0 == 0 then none
        else
          match wsDotSearch rest k0 with
          | some g2 => some (c, g2.asString)
          | none => none
      else none

/-- The letter with which a line starts an option, if it does. -/
def letterOf (l : String) : Option Char :=
  (letterLineMatch l).map Prod.fst

/-- Whether the line, right-stripped, ends with a question mark. -/
def endsWithQ (a : String) : Bool :=
  (pyRStrip a.data).getLast? == some '?'

/-- False-positive heuristic of source lines 213-218 on the four candidate
option lines: the A line ends with a question mark, or its length exceeds
twice the average of the B, C, D line lengths.  The source compares
against a float average; for list lengths far below 2 to the 50th the
float comparison agrees exactly with the integer test three-a greater
than two-times-sum used here. -/
def heurBad (a b c d : String) : Bool :=
  endsWithQ a || decide (3 * a.length > 2 * (b.length + c.length + d.length))

/-- Lookahead loop of source lines 191-226 over the at-most-19 lines after
an A candidate: collect the next expected letters in order, skipping
footer lines; on completing four candidates, accept unless the heuristic
rejects, in which case the collected state is reset (after which four can
never be reached again in this window). Returns whether the candidate A
line is accepted as the answer-block start. -/
def lookaheadLoop : List String → List (Char × String) → List Char → Bool
  | [], _, _ => false
  | line :: rest, found, sf =>
      if isHdrB line then lookaheadLoop rest found sf
      else
        match sf with
        | [] => lookaheadLoop rest found sf
        | ch :: sfRest =>
            if detMatch ch line then
              match found with
              | [(_, a), (_, b), (_, c)] =>
                  if heurBad a b c line then lookaheadLoop rest [] ['B', 'C', 'D']
                  else true
              | _ => lookaheadLoop rest (found ++ [(ch, line)]) sfRest
            else lookaheadLoop rest found sf

/-- Outer scan of source lines 179-229: find the first line index that
starts with the A option pattern and whose lookahead confirms B, C, D in
order and survives the heuristic. -/
def findAnswerStart : Nat → List String → Option Nat
  | _, [] => none
  | idx, line :: rest =>
      if isHdrA line then findAnswerStart (idx + 1) rest
      else if detMatch 'A' line then
        if lookaheadLoop (rest.take 19) [('A', line)] ['B', 'C', 'D'] then some idx
        else findAnswerStart (idx + 1) rest
      else findAnswerStart (idx + 1) rest

/-- One answer option: letter, reassembled text, correctness flag. -/
structure Answer where
  letter : Char
  text : String
  correct : Bool
deriving Repr, DecidableEq

/-- One extracted question record. -/
structure Question where
  id : Int
  question : String
  answers : List Answer
deriving Repr, DecidableEq

/-- One skip entry of the extraction report; an id of none models the
Python placeholder string unknown. -/
structure SkipEntry where
  id : Option Int
  reason : String
  answers_found : Nat
  has_question : Bool
  question_preview : String
  answer_letters : List Char
deriving Repr, DecidableEq

/-- Option assembler of source lines 245-271: an option-pattern line opens
a new option (flushing the current one; the correctness flag is the
letter being A); any other non-blank non-footer line is appended to the
current option text with a single separating space. -/
def assembleLoop : List String → Option Answer → List Answer → List Answer
  | [], cur, acc => acc ++ cur.toList
  | line :: rest, cur, acc =>
      match letterLineMatch line with
      | some (ch, tp) => assembleLoop rest (some ⟨ch, tp, ch == 'A'⟩) (acc ++ cur.toList)
      | none =>
          match cur with
          | some a =>
              if !((pyStripL line.data).isEmpty) then
                if isHdrB line then assembleLoop rest (some a) acc
                else assembleLoop rest (some ⟨a.letter, a.text ++ " " ++ line, a.correct⟩) acc
              else assembleLoop rest (some a) acc
          | none => assembleLoop rest none acc

/-- Lowercase keyword literals of the trailing-fragment scrubber of source
line 275; note they are broader than the footer literals of lines 138-142. -/
def caLits : List (List Char) :=
  ["stand / as at::".data, "richtige antwort".data, "correct answer".data,
   "seite".data, "page".data]

/-- Whether the greedy-dot-run-then-dollar tail of the pattern matches the
whole list: no newline may occur except possibly as the final character
(the dollar of a non-MULTILINE Python pattern also matches just before a
final newline). -/
def dotStarDollar (cs : List Char) : Bool :=
  !(cs.dropLast.contains '\n')

/-- Whether the trailing-fragment pattern of line 275 matches at the head
of the list: an optional whitespace run, one of the keywords
(IGNORECASE), then the rest of the string up to the dollar. -/
def caMatch (cs : List Char) : Bool :=
  let r := cs.dropWhile pyIsSpace
  caLits.any (fun lit => ciStarts lit r && dotStarDollar (r.drop lit.length))

/-- Scanner for the re.sub of line 275: at the leftmost matching position
everything to the end of the string is removed, except a final newline
when the dollar matched just before it. -/
def caGo : List Char → List Char
  | [] => []
  | c :: cs =>
      if caMatch (c :: cs) then
        if (c :: cs).getLast? == some '\n' then ['\n'] else []
      else c :: caGo cs

/-- Answer-text cleanup of lines 273-276: remove the trailing fragment and
strip the result. -/
def cleanAnswerText (s : String) : String :=
  (pyStripL (caGo s.data)).asString

/-- The space join of the question lines, as str.join of a single space. -/
def joinSpace : List String → String
  | [] => ""
  | [s] => s
  | s :: rest => s ++ " " ++ joinSpace rest

/-- The comma join of the skip reasons, as str.join of comma-space. -/
def joinComma : List String → String
  | [] => ""
  | [s] => s
  | s :: rest => s ++ ", " ++ joinComma rest

/-- Skip reason of lines 287-293 from the question-text length and the
number of answers found. -/
def mkReason (qlen : Nat) (acount : Nat) : String :=
  joinComma
    ((if qlen ≤ 10 then ["question text too short (" ++ toString qlen ++ " chars)"] else []) ++
     (if acount ≠ 4 then ["found " ++ toString acount ++ " answers instead of 4"] else []))

/-- The cleaned, stripped, non-empty lines of one block after the filters
of lines 163-170. -/
def blockLines (q_block : String) : List String :=
  ((((splitLinesGo [] (blockClean q_block.data)).map pyStripL).filter
      (fun l => !l.isEmpty)).map List.asString).filter (fun l => !lineFilter170 l)

/-- Split of a block into question lines and answer lines, per lines
231-239: the question side is header-filtered; with no boundary all lines
are question lines. -/
def splitQA (lines : List String) : List String × List String :=
  match findAnswerStart 0 lines with
  | some k => (((lines.take k).filter (fun l => !isHdrA l)), lines.drop k)
  | none => (lines, [])

/-- The question text of one block: the question-side lines joined by a
single space and stripped (lines 242). -/
def blockQText (q_block : String) : String :=
  (pyStripL (joinSpace (splitQA (blockLines q_block)).1).data).asString

/-- The cleaned answers of one block: the assembled options with the
trailing-fragment scrub applied to each text (lines 245-276). -/
def blockAnswers (q_block : String) : List Answer :=
  (assembleLoop (splitQA (blockLines q_block)).2 none []).map
    (fun a => { a with text := cleanAnswerText a.text })

/-- Per-block extraction of lines 162-301: returns a question record or a
skip entry. -/
def processBlock (q_num : Int) (q_block : String) : Question ⊕ SkipEntry :=
  if (blockAnswers q_block).length == 4 && (blockQText q_block).length > 10 then
    Sum.inl { id := q_num, question := blockQText q_block, answers := blockAnswers q_block }
  else
    Sum.inr
      { id := some q_num
        reason := mkReason (blockQText q_block).length (blockAnswers q_block).length
        answers_found := (blockAnswers q_block).length
        has_question := blockQText q_block != ""
        question_preview :=
          if blockQText q_block == "" then "N/A"
          else ((blockQText q_block).data.take 100).asString
        answer_letters := (blockAnswers q_block).map (fun a => a.letter) }

/-- Run of digits with single interior underscores, as accepted by the
Python int constructor; returns the plain digit list. -/
def pduGo (acc : List Char) : List Char → Option (List Char)
  | [] => some acc
  | '_' :: c :: cs => if c.isDigit then pduGo (acc ++ [c]) cs else none
  | c :: cs => if c.isDigit then pduGo (acc ++ [c]) cs else none

/-- Digit-with-underscore run starting with a digit. -/
def parseDigitsU : List Char → Option (List Char)
  | [] => none
  | c :: cs => if c.isDigit then pduGo [c] cs else none

/-- Numeric value of a digit run. -/
def digitsVal (cs : List Char) : Option Nat :=
  (parseDigitsU cs).map (fun ds => ds.foldl (fun a c => a * 10 + (c.toNat - '0'.toNat)) 0)

/-- The Python int constructor on a string (ASCII digits): strip, optional
sign, digits with single interior underscores; none models ValueError. -/
def parseIntPy (s : String) : Option Int :=
  match pyStripL s.data with
  | '+' :: rest => (digitsVal rest).map Int.ofNat
  | '-' :: rest => (digitsVal rest).map (fun n => -(n : Int))
  | rest => (digitsVal rest).map Int.ofNat

/-- Description of the ValueError raised by int on a bad literal. -/
def exceptionReason (tok : String) : String :=
  "Exception: invalid literal for int() with base 10: " ++ "'" ++ tok ++ "'"

/-- Skip entry recorded by the except branch of lines 304-314; the id is
the latest previously bound question number, none when no number was ever
bound (the Python locals check of line 305). -/
def mkExcSkip (lastQ : Option Int) (tok : String) : SkipEntry :=
  { id := lastQ
    reason := exceptionReason tok
    answers_found := 0
    has_question := false
    question_preview := "N/A"
    answer_letters := [] }

/-- Main loop of lines 154-315 over the part list: consume a number part
and a block part at a time; a failed number parse is caught and recorded,
and processing continues with the next pair; a trailing unpaired part is
dropped. -/
def mainLoop : List String → Option Int → List Question × List SkipEntry
  | [], _ => ([], [])
  | [_], _ => ([], [])
  | a :: b :: rest, lastQ =>
      match parseIntPy (pyStripL a.data).asString with
      | none =>
          let r := mainLoop rest lastQ
          (r.1, mkExcSkip lastQ (pyStripL a.data).asString :: r.2)
      | some n =>
          match processBlock n b with
          | .inl q => let r := mainLoop rest (some n); (q :: r.1, r.2)
          | .inr s => let r := mainLoop rest (some n); (r.1, s :: r.2)

/-- Start index of line 152: skip the leading part when it strips to the
empty string or does not begin with a digit. -/
def startIdx (p0 : String) : Nat :=
  match pyStripL p0.data with
  | [] => 1
  | c :: _ => if c.isDigit then 0 else 1

/-- The whole extractor parse_azf_document of source lines 120-317. -/
def parse_azf_document (text : String) : List Question × List SkipEntry :=
  mainLoop ((pySplit (cleanText text.data)).drop
    (startIdx ((pySplit (cleanText text.data)).headD ""))) none

/-- Consecutive pairing of a part list, dropping a trailing unpaired part,
as the loop of line 154 consumes it. -/
def pairUp : List String → List (String × String)
  | a :: b :: rest => (a, b) :: pairUp rest
  | _ => []

/-- The number-and-block pairs the segmenter hands to block processing:
the part list with the start index of line 152 applied, paired up. -/
def segmentPairs (text : String) : List (String × String) :=
  pairUp ((pySplit text.data).drop (startIdx ((pySplit text.data).headD "")))

/-- The pairing the specification describes: each captured number paired
with the part that immediately follows its match, the leading unmatched
fragment always discarded. -/
def expectedPairs (text : String) : List (String × String) :=
  pairUp ((pySplit text.data).drop 1)

/-- Number of blocks produced by segmentation of the cleaned document:
the split yields the leading fragment plus two parts per match. -/
def segmentedBlockCount (text : String) : Nat :=
  ((pySplit (cleanText text.data)).length - 1) / 2

/-- Number of distinct ids among the skip entries. -/
def distinctSkipIdCount (sk : List SkipEntry) : Nat :=
  ((sk.map (fun s => s.id)).dedup).length

/-- The record a number-and-block pair contributes to the valid output, if
any: the parsed number fed to block processing, keeping only records. -/
def recOfPair (p : String × String) : Option Question :=
  match parseIntPy (pyStripL p.1.data).asString with
  | none => none
  | some n =>
      match processBlock n p.2 with
      | .inl q => some q
      | .inr _ => none

/-- The expected dense id total of the source document (line 392). -/
def expectedTotal : Nat := 289

/-- The expected id list 1 to 289 in ascending order. -/
def expectedIds : List Int :=
  (List.range expectedTotal).map (fun k : Nat => (k : Int) + 1)

/-- The sorted missing-id list of source lines 443-451: expected ids not
among the ids of the valid records. -/
def missingIds (qs : List Question) : List Int :=
  expectedIds.filter (fun i => !(qs.any (fun q => q.id == i)))

/-- Range grouping of source lines 453-473: consecutive ids are merged
into closed ranges, modelled as start-end pairs. -/
def compressRanges (start e : Int) : List Int → List (Int × Int)
  | [] => [(start, e)]
  | n :: rest =>
      if n = e + 1 then compressRanges start n rest
      else (start, e) :: compressRanges n n rest

/-- Range compression of a sorted id list. -/
def rangeCompress : List Int → List (Int × Int)
  | [] => []
  | x :: rest => compressRanges x x rest

/-- Expansion of one closed range back to the id list. -/
def expandRange (r : Int × Int) : List Int :=
  (List.range (r.2 + 1 - r.1).toNat).map (fun k : Nat => r.1 + (k : Int))

/-- Expansion of a compressed range list. -/
def expandAll (rs : List (Int × Int)) : List Int :=
  (rs.map expandRange).flatten

/-- Whether any position of the list starts a match of the page-footer
pattern of line 141. -/
def p4AnyMatch : List Char → Bool
  | [] => (p4MatchLen []).isSome
  | c :: cs => (p4MatchLen (c :: cs)).isSome || p4AnyMatch cs

/-- Whether the text contains a fragment matching one of the five footer
patterns of the whole-document cleanup (lines 138-142): for the four
literal-plus-rest-of-line patterns this is containment of the literal,
for the page-footer pattern a full digit-bearing match. -/
def containsFooter41 (cs : List Char) : Bool :=
  ciHasSub standPat cs || ciHasSub richtigePat cs || ciHasSub correctAlwaysPat cs ||
  p4AnyMatch cs || ciHasSub pruefPat cs

/-- Whether the text contains none of the five keywords of the
trailing-fragment scrubber of line 275. -/
def noCAKeyword (cs : List Char) : Bool :=
  !(ciHasSub "stand / as at::".data cs || ciHasSub "richtige antwort".data cs ||
    ciHasSub "correct answer".data cs || ciHasSub "seite".data cs ||
    ciHasSub "page".data cs)

/-- The number-and-block pairs of the cleaned document, as the main loop
consumes them. -/
def blockPairs (text : String) : List (String × String) :=
  pairUp ((pySplit (cleanText text.data)).drop
    (startIdx ((pySplit (cleanText text.data)).headD "")))

/-- Invariant of the split scanner state: collected digits really are
digits. -/
def spInv : SpSt → Bool
  | .num _ _ ds => ds.all Char.isDigit
  | _ => true

/-! Helper lemmas about the split scanner and the main loop. -/

theorem spRun_ne_nil : ∀ (cs : List Char) (st : SpSt), spRun st cs ≠ []
  | [], st => by cases st <;> simp [spRun, spFinish]
  | c :: cs, st => by
      have ih := fun st => spRun_ne_nil cs st
      cases st <;> simp only [spRun] <;> split <;> try exact ih _
      · split
        · simp
        · split <;> exact ih _

theorem spRun_length_odd : ∀ (cs : List Char) (st : SpSt), (spRun st cs).length % 2 = 1
  | [], st => by cases st <;> simp [spRun, spFinish]
  | c :: cs, st => by
      have ih := fun st => spRun_length_odd cs st
      cases st <;> simp only [spRun] <;> split <;> try exact ih _
      · split
        · have h := ih .ws
          simp only [List.length_cons]
          omega
        · split <;> exact ih _

theorem spRun_pairs_digits :
    ∀ (cs : List Char) (st : SpSt), spInv st = true →
      ∀ p ∈ pairUp ((spRun st cs).drop 1), p.1.data ≠ [] ∧ p.1.data.all Char.isDigit
  | [], st => by
      intro hst p hp
      cases st <;> simp [spRun, spFinish, pairUp] at hp
  | c :: cs, st => by
      intro hst p hp
      have ih := fun st h => spRun_pairs_digits cs st h
      cases st with
      | scan acc =>
          simp only [spRun] at hp
          split at hp
          · exact ih _ (by simp [spInv]) p hp
          · exact ih _ (by simp [spInv]) p hp
      | ws =>
          simp only [spRun] at hp
          split at hp
          · exact ih _ (by simp [spInv]) p hp
          · exact ih _ (by simp [spInv]) p hp
      | num acc buf ds =>
          simp only [spRun] at hp
          split at hp
          · refine ih _ ?_ p hp
            simp only [spInv, List.all_append, List.all_cons, List.all_nil]
            simp only [spInv] at hst
            rename_i hdig
            simp [hst, hdig]
          · split at hp
            · rename_i hcond
              obtain rec := spRun_ne_nil cs .ws
              cases hr : spRun .ws cs with
              | nil => exact absurd hr rec
              | cons r0 rrest =>
                  rw [hr] at hp
                  simp only [List.drop_succ_cons, List.drop_zero] at hp
                  rw [pairUp] at hp
                  rcases List.mem_cons.mp hp with h1 | h2
                  · subst h1
                    simp only [spInv] at hst
                    constructor
                    · intro hds
                      have hds' : ds = [] := hds
                      rw [hds'] at hcond
                      simp at hcond
                    · exact hst
                  · have := ih .ws (by simp [spInv])
                    have hsub : pairUp rrest = pairUp ((spRun SpSt.ws cs).drop 1) := by
                      rw [hr]; rfl
                    exact this p (hsub ▸ h2)
            · split at hp
              · exact ih _ (by simp [spInv]) p hp
              · exact ih _ (by simp [spInv]) p hp

theorem mainLoop_count : ∀ (l : List String) (lastQ : Option Int),
    (mainLoop l lastQ).1.length + (mainLoop l lastQ).2.length = l.length / 2
  | [], _ => by simp [mainLoop]
  | [_], _ => by simp [mainLoop]
  | a :: b :: rest, lastQ => by
      simp only [mainLoop]
      cases hp : parseIntPy (pyStripL a.data).asString with
      | none =>
          have ih := mainLoop_count rest lastQ
          simp only [hp, List.length_cons]
          omega
      | some n =>
          have ih := mainLoop_count rest (some n)
          cases hb : processBlock n b with
          | inl q =>
              simp only [hp, hb, List.length_cons]
              omega
          | inr s =>
              simp only [hp, hb, List.length_cons]
              omega

theorem mainLoop_fst : ∀ (l : List String) (lastQ : Option Int),
    (mainLoop l lastQ).1 = (pairUp l).filterMap recOfPair
  | [], _ => by simp [mainLoop, pairUp]
  | [_], _ => by simp [mainLoop, pairUp]
  | a :: b :: rest, lastQ => by
      rw [pairUp]
      simp only [mainLoop, List.filterMap_cons]
      cases hp : parseIntPy (pyStripL a.data).asString with
      | none =>
          rw [show recOfPair (a, b) = none from by simp [recOfPair, hp]]
          simp only [hp]
          exact mainLoop_fst rest lastQ
      | some n =>
          cases hb : processBlock n b with
          | inl q =>
              rw [show recOfPair (a, b) = some q from by simp [recOfPair, hp, hb]]
              simp only [hp, hb]
              rw [mainLoop_fst rest (some n)]
          | inr s =>
              rw [show recOfPair (a, b) = none from by simp [recOfPair, hp, hb]]
              simp only [hp, hb]
              exact mainLoop_fst rest (some n)

theorem startIdx_le_one (p0 : String) : startIdx p0 = 0 ∨ startIdx p0 = 1 := by
  unfold startIdx
  cases pyStripL p0.data with
  | nil => right; rfl
  | cons c rest => by_cases hc : c.isDigit <;> simp [hc]

/-! Claim theorems. -/

/-- C9: parse_azf_document is deterministic: two runs on the same document
text return identical question and skip lists. -/
theorem c9_deterministic (t : String) (r1 r2 : List Question × List SkipEntry)
    (h1 : r1 = parse_azf_document t) (h2 : r2 = parse_azf_document t) : r1 = r2 := by
  rw [h1, h2]

theorem c9_witness :
    (parse_azf_document "1 ab\n", parse_azf_document "1 ab\n").1 =
      (parse_azf_document "1 ab\n", parse_azf_document "1 ab\n").2 :=
  c9_deterministic "1 ab\n" _ _ rfl rfl

/-- C3 counterexample: on a document whose two blocks claim the same
number and both fail validation, the two skip entries share one id, so
valid records plus distinct skip ids is one while two blocks were
segmented. -/
theorem c3_counterexample :
    ¬ ((parse_azf_document "5 x\n5 y\n").1.length +
        distinctSkipIdCount (parse_azf_document "5 x\n5 y\n").2 =
        segmentedBlockCount "5 x\n5 y\n") := by
  decide

/-- C3 amended: for every document, the number of valid records plus the
number of skip entries (counting entries, not distinct ids) equals the
number of segmented blocks. -/
theorem c3_amended (t : String) :
    (parse_azf_document t).1.length + (parse_azf_document t).2.length =
      segmentedBlockCount t := by
  unfold parse_azf_document segmentedBlockCount
  have hodd : (pySplit (cleanText t.data)).length % 2 = 1 :=
    spRun_length_odd (cleanText t.data) (.num [] [] [])
  have hnn : pySplit (cleanText t.data) ≠ [] :=
    spRun_ne_nil (cleanText t.data) (.num [] [] [])
  have hcount := mainLoop_count
    ((pySplit (cleanText t.data)).drop
      (startIdx ((pySplit (cleanText t.data)).headD ""))) none
  have hs := startIdx_le_one ((pySplit (cleanText t.data)).headD "")
  have hlen : (pySplit (cleanText t.data)).length ≠ 0 :=
    fun h => hnn (List.eq_nil_of_length_eq_zero h)
  simp only [List.length_drop] at hcount
  rcases hs with hs | hs <;> rw [hs] at hcount ⊢ <;> omega

/-- C2 counterexample: on a cleaned text whose leading unmatched fragment
begins with a digit, the fragment is not discarded and every parsed
number is paired with the preceding text instead of the text that follows
it. -/
theorem c2_counterexample :
    ¬ segmentPairs "9x\n1 abc\n2 def\n" = expectedPairs "9x\n1 abc\n2 def\n" := by
  decide

/-- C2 amended: provided the leading fragment of the cleaned text strips
to the empty string or does not begin with a digit, the segmenter pairs
each captured number with the part that immediately follows its match and
discards the leading fragment; and every captured number of the expected
pairing is a non-empty run of digits. -/
theorem c2_amended (t : String)
    (h : pyStripL ((pySplit t.data).headD "").data = [] ∨
      ((pyStripL ((pySplit t.data).headD "").data).headD ' ').isDigit = false) :
    segmentPairs t = expectedPairs t ∧
      ∀ p ∈ expectedPairs t, p.1.data ≠ [] ∧ p.1.data.all Char.isDigit := by
  constructor
  · unfold segmentPairs expectedPairs
    have hs : startIdx ((pySplit t.data).headD "") = 1 := by
      unfold startIdx
      rcases h with h | h
      · rw [h]
      · cases he : pyStripL ((pySplit t.data).headD "").data with
        | nil => rfl
        | cons c rest =>
            rw [he] at h
            simp only [List.headD_cons] at h
            simp [h]
    rw [hs]
  · intro p hp
    exact spRun_pairs_digits t.data (.num [] [] []) rfl p hp

theorem c2_witness :
    segmentPairs "\n1 abc\n" = expectedPairs "\n1 abc\n" :=
  (c2_amended "\n1 abc\n" (Or.inl (by decide))).1

/-- C10: valid records are emitted in block order with no sorting or
deduplication: the question list is exactly the in-order filter-map of
the number-and-block pairs through per-block extraction, and a document
with two valid blocks claiming number 1 yields two records with id 1 in
document order. -/
theorem c10_order :
    (∀ t : String, (parse_azf_document t).1 = (blockPairs t).filterMap recOfPair) ∧
      (parse_azf_document
          "1 What is the first thing here?\nA aa\nB bb\nC cc\nD dd\n1 What is the second thing here?\nA ee\nB ff\nC gg\nD hh\n").1.map
          (fun q => q.id) = [1, 1] := by
  constructor
  · intro t
    unfold parse_azf_document blockPairs
    exact mainLoop_fst _ none
  · decide

/-- C5 counterexample: in the document below, the third skip entry stems
from a failed number parse (its reason is the exception description), yet
its id is the stale number 23 bound by an earlier block, not the unknown
placeholder the claim requires. -/
theorem c5_counterexample :
    ¬ (∀ s ∈ (parse_azf_document "9x\n1 23\n2 x\n3 y\n").2,
        s.reason.data.take 9 = "Exception".data → s.id = none) := by
  decide

/-- C5 amended: a failed number parse never propagates: it is recorded at
the block boundary as a skip entry carrying the exception description,
whose id is the most recently successfully parsed question number, or the
unknown placeholder when no number has parsed yet, and all remaining
blocks are still processed. -/
theorem c5_amended (a b : String) (rest : List String) (lastQ : Option Int)
    (h : parseIntPy (pyStripL a.data).asString = none) :
    mainLoop (a :: b :: rest) lastQ =
      ((mainLoop rest lastQ).1,
        mkExcSkip lastQ (pyStripL a.data).asString :: (mainLoop rest lastQ).2) := by
  simp [mainLoop, h]

theorem c5_witness :
    mainLoop ["9x", "1"] none = ([], [mkExcSkip none "9x"]) := by
  rw [c5_amended "9x" "1" [] none (by decide)]
  decide

/-- C6: a non-blank answer line that starts no letter token and matches no
footer keyword is appended to the option under assembly with one
separating space; on the spec example document the split option B
reassembles to the joined text. -/
theorem c6_continuation (line : String) (rest : List String) (a : Answer)
    (acc : List Answer)
    (h1 : letterLineMatch line = none)
    (h2 : (pyStripL line.data).isEmpty = false)
    (h3 : isHdrB line = false) :
    assembleLoop (line :: rest) (some a) acc =
      assembleLoop rest (some ⟨a.letter, a.text ++ " " ++ line, a.correct⟩) acc ∧
    (parse_azf_document
        "1 Which frequencies may be used in the airband here?\nA Paris fine\nB Frequency range is\n118.000 - 136.975 MHz\nC simple answer\nD another answer\n").1 =
      [{ id := 1
         question := "Which frequencies may be used in the airband here?"
         answers := [⟨'A', "Paris fine", true⟩,
                     ⟨'B', "Frequency range is 118.000 - 136.975 MHz", false⟩,
                     ⟨'C', "simple answer", false⟩,
                     ⟨'D', "another answer", false⟩] }] := by
  constructor
  · simp [assembleLoop, h1, h2, h3]
  · decide

theorem c6_witness :
    assembleLoop ["118.000 - 136.975 MHz"] (some ⟨'B', "Frequency range is", false⟩) [] =
      assembleLoop [] (some ⟨'B', "Frequency range is 118.000 - 136.975 MHz", false⟩) [] :=
  (c6_continuation "118.000 - 136.975 MHz" [] ⟨'B', "Frequency range is", false⟩ []
    (by decide) (by decide) (by decide)).1

theorem ciStarts_hasSub (pat : List Char) (cs : List Char)
    (h : ciStarts pat cs = true) : ciHasSub pat cs = true := by
  cases cs with
  | nil => simpa [ciHasSub] using h
  | cons c cs => simp [ciHasSub, h]

theorem ciHasSub_of_dropWhile (pat : List Char) (p : Char → Bool) :
    ∀ cs : List Char, ciHasSub pat (cs.dropWhile p) = true → ciHasSub pat cs = true
  | [], h => h
  | c :: cs, h => by
      by_cases hp : p c = true
      · rw [List.dropWhile_cons_of_pos hp] at h
        have := ciHasSub_of_dropWhile pat p cs h
        simp [ciHasSub, this]
      · rwa [List.dropWhile_cons_of_neg hp] at h

theorem caMatch_keyword (cs : List Char) (h : caMatch cs = true) :
    noCAKeyword cs = false := by
  simp only [caMatch, caLits, List.any_cons, List.any_nil, Bool.or_eq_true,
    Bool.and_eq_true, Bool.or_false] at h
  have key : ∀ pat : List Char, ciStarts pat (cs.dropWhile pyIsSpace) = true →
      ciHasSub pat cs = true := fun pat hp =>
    ciHasSub_of_dropWhile pat pyIsSpace cs (ciStarts_hasSub pat _ hp)
  unfold noCAKeyword
  rcases h with ⟨h1, _⟩ | ⟨h1, _⟩ | ⟨h1, _⟩ | ⟨h1, _⟩ | ⟨h1, _⟩ <;>
    simp [key _ h1]

theorem caGo_noKw : ∀ cs : List Char, noCAKeyword cs = true → caGo cs = cs
  | [], _ => rfl
  | c :: cs, h => by
      have hm : caMatch (c :: cs) = false := by
        by_contra hc
        rw [caMatch_keyword (c :: cs) (by revert hc; cases caMatch (c :: cs) <;> simp)] at h
        exact Bool.false_ne_true h
      have htail : noCAKeyword cs = true := by
        simp only [noCAKeyword, Bool.not_eq_true', Bool.or_eq_false_iff] at h ⊢
        simp only [ciHasSub, Bool.or_eq_false_iff] at h
        tauto
      simp [caGo, hm, caGo_noKw cs htail]

/-- C7 counterexample: the option text below contains no fragment of any
of the five whole-document footer patterns, yet the post-processing step
changes it, because the trailing scrubber keys on the bare word page. -/
theorem c7_counterexample :
    containsFooter41 "See page 3".data = false ∧
      cleanAnswerText "See page 3" ≠ "See page 3" := by
  decide

/-- C7 amended: the post-processing of an assembled option text removes
everything from the first position where an optional whitespace run is
followed by one of the five case-insensitive keywords Stand-As-at,
richtige Antwort, correct answer, Seite, page (a broader set than the
footer patterns of the whole-document cleanup), then strips; a text
containing none of these keywords is left unchanged when already
stripped. -/
theorem c7_amended (s : String) (h1 : noCAKeyword s.data = true)
    (h2 : pyStripL s.data = s.data) :
    cleanAnswerText s = s := by
  unfold cleanAnswerText
  rw [caGo_noKw s.data h1, h2]
  rfl

theorem c7_witness : cleanAnswerText "Paris" = "Paris" :=
  c7_amended "Paris" (by decide) (by decide)

theorem lookahead_false_short :
    ∀ (w : List String) (found : List (Char × String)) (sf : List Char),
      found.length + sf.length ≤ 3 → lookaheadLoop w found sf = false
  | [], _, _, _ => rfl
  | line :: rest, found, sf, h => by
      cases sf with
      | nil =>
          simp only [lookaheadLoop]
          split
          · exact lookahead_false_short rest found [] h
          · exact lookahead_false_short rest found [] h
      | cons ch sfRest =>
          simp only [lookaheadLoop]
          split
          · exact lookahead_false_short rest found (ch :: sfRest) h
          · by_cases hd : detMatch ch line = true
            · rw [if_pos hd]
              rcases found with _ | ⟨⟨x1, a1⟩, _ | ⟨⟨x2, a2⟩, _ | ⟨⟨x3, a3⟩, _ | ⟨⟨x4, a4⟩, f5⟩⟩⟩⟩
              · exact lookahead_false_short rest _ _
                  (by simp only [List.length_nil, List.length_cons, List.length_append] at h ⊢; omega)
              · exact lookahead_false_short rest _ _
                  (by simp only [List.length_nil, List.length_cons, List.length_append] at h ⊢; omega)
              · exact lookahead_false_short rest _ _
                  (by simp only [List.length_nil, List.length_cons, List.length_append] at h ⊢; omega)
              · exfalso
                simp only [List.length_cons, List.length_nil] at h
                omega
              · exact lookahead_false_short rest _ _
                  (by simp only [List.length_nil, List.length_cons, List.length_append] at h ⊢; omega)
            · rw [if_neg hd]
              exact lookahead_false_short rest found (ch :: sfRest) h

/-- C4: once a candidate answer block with A, B, C collected completes on
a D line and the heuristic rejects it (A candidate ending in a question
mark, or longer than twice the average of the other three), the candidate
is rejected and this lookahead window can never accept, so scanning
resumes with the next A candidate; on the synthetic block whose stem
starts with the token A-strange-question the stem line does not become an
answer option. -/
theorem c4_heuristic :
    (∀ (line : String) (rest : List String) (a b c : String),
        isHdrB line = false → detMatch 'D' line = true → heurBad a b c line = true →
        lookaheadLoop (line :: rest) [('A', a), ('B', b), ('C', c)] ['D'] = false) ∧
      (parse_azf_document
          "1 Here is some question prose context\nA strange question?\nA real1\nB x2\nC y3\nD z4\n").1 =
        [{ id := 1
           question := "Here is some question prose context A strange question?"
           answers := [⟨'A', "real1", true⟩, ⟨'B', "x2", false⟩,
                       ⟨'C', "y3", false⟩, ⟨'D', "z4", false⟩] }] := by
  constructor
  · intro line rest a b c h1 h2 h3
    simp only [lookaheadLoop, h1, h2, h3, Bool.false_eq_true, if_false, if_true]
    exact lookahead_false_short rest [] ['B', 'C', 'D'] (by simp)
  · decide

theorem c4_witness :
    lookaheadLoop ["D dd"] [('A', "A strange question?"), ('B', "B x"), ('C', "C y")]
      ['D'] = false :=
  c4_heuristic.1 "D dd" [] "A strange question?" "B x" "C y"
    (by decide) (by decide) (by decide)

theorem missingIds_pairwise (qs : List Question) : (missingIds qs).Pairwise (· < ·) := by
  unfold missingIds expectedIds
  apply List.Pairwise.filter
  rw [List.pairwise_map]
  exact (List.pairwise_lt_range expectedTotal).imp (fun hab => by omega)

theorem expandRange_succ (start e : Int) (h : start ≤ e + 1) :
    expandRange (start, e + 1) = expandRange (start, e) ++ [e + 1] := by
  unfold expandRange
  have h1 : (e + 1 + 1 - start).toNat = (e + 1 - start).toNat + 1 := by omega
  rw [h1, List.range_succ, List.map_append]
  simp only [List.map_cons, List.map_nil, List.append_cancel_left_eq, List.cons.injEq,
    and_true]
  omega

theorem expandRange_single (n : Int) : expandRange (n, n) = [n] := by
  unfold expandRange
  have h1 : (n + 1 - n).toNat = 1 := by omega
  rw [h1]
  simp [List.range_succ]

theorem expand_compress_go :
    ∀ (rest : List Int) (start e : Int), start ≤ e → (e :: rest).Pairwise (· < ·) →
      expandAll (compressRanges start e rest) = expandRange (start, e) ++ rest
  | [], start, e, _, _ => by simp [compressRanges, expandAll]
  | n :: rest, start, e, hse, hp => by
      have hen : e < n := (List.pairwise_cons.mp hp).1 n (List.mem_cons_self n rest)
      have hp' : (n :: rest).Pairwise (· < ·) := (List.pairwise_cons.mp hp).2
      rw [compressRanges]
      by_cases hn : n = e + 1
      · rw [if_pos hn]
        rw [expand_compress_go rest start n (by omega) hp']
        subst hn
        rw [expandRange_succ start e (by omega)]
        simp
      · rw [if_neg hn]
        have : expandAll ((start, e) :: compressRanges n n rest) =
            expandRange (start, e) ++ expandAll (compressRanges n n rest) := by
          simp [expandAll]
        rw [this, expand_compress_go rest n n le_rfl hp', expandRange_single]
        simp

/-- C8: the reported missing-id list is exactly the expected range 1 to
289 minus the extracted ids, and expanding its contiguous-range
compression reproduces the sorted missing list exactly. -/
theorem c8_missing_ids (qs : List Question) :
    (∀ i : Int, i ∈ missingIds qs ↔ (1 ≤ i ∧ i ≤ 289 ∧ ∀ q ∈ qs, q.id ≠ i)) ∧
      expandAll (rangeCompress (missingIds qs)) = missingIds qs := by
  constructor
  · intro i
    unfold missingIds expectedIds expectedTotal
    simp only [List.mem_filter, List.mem_map, List.mem_range, Bool.not_eq_true',
      List.any_eq_false, beq_iff_eq]
    constructor
    · rintro ⟨⟨k, hk, rfl⟩, hpred⟩
      refine ⟨by omega, by omega, ?_⟩
      intro q hq
      exact hpred q hq
    · rintro ⟨h1, h2, h3⟩
      refine ⟨⟨(i - 1).toNat, by omega, by omega⟩, ?_⟩
      intro q hq
      exact h3 q hq
  · cases hm : missingIds qs with
    | nil => rfl
    | cons x rest =>
        have hp : (x :: rest).Pairwise (· < ·) := hm ▸ missingIds_pairwise qs
        rw [rangeCompress, expand_compress_go rest x x le_rfl hp, expandRange_single]
        rfl

theorem head_drop_takeWhile (p : Char → Bool) :
    ∀ (cs : List Char) (c : Char),
      (cs.drop ((cs.takeWhile p).length)).head? = some c → p c = false
  | [], c, h => by simp at h
  | d :: cs, c, h => by
      by_cases hd : p d = true
      · rw [List.takeWhile_cons_of_pos hd] at h
        simp only [List.length_cons, List.drop_succ_cons] at h
        exact head_drop_takeWhile p cs c h
      · rw [List.takeWhile_cons_of_neg hd] at h
        simp only [List.length_nil, List.drop_zero, List.head?_cons, Option.some.injEq] at h
        subst h
        simpa using hd

theorem detMatch_letterOf (ch : Char) (l : String)
    (hch : (ch == 'A' || ch == 'B' || ch == 'C' || ch == 'D') = true)
    (h : detMatch ch l = true) : letterOf l = some ch := by
  unfold detMatch at h
  unfold letterOf letterLineMatch
  cases hl : l.data with
  | nil => rw [hl] at h; simp at h
  | cons c rest =>
      rw [hl] at h
      simp only [Bool.and_eq_true, beq_iff_eq, Bool.not_eq_true'] at h
      obtain ⟨⟨hc, hws⟩, hne⟩ := h
      have hcond : (c == 'A' || c == 'B' || c == 'C' || c == 'D') = true := by
        rw [hc]; exact hch
      dsimp only
      split
      · next _ =>
          have hnz : rest.takeWhile pyIsSpace ≠ [] := by
            intro hh
            rw [hh] at hws
            simp at hws
          cases hk : (rest.takeWhile pyIsSpace).length with
          | zero => exact absurd (List.eq_nil_of_length_eq_zero hk) hnz
          | succ k =>
              cases hh : (rest.drop (k + 1)).head? with
              | none =>
                  exfalso
                  rw [List.head?_eq_none_iff] at hh
                  rw [hk] at hne
                  rw [hh] at hne
                  simp at hne
              | some c0 =>
                  have hps : pyIsSpace c0 = false :=
                    head_drop_takeWhile pyIsSpace rest c0 (by rw [hk]; exact hh)
                  have hc0n : (c0 == '\n') = false := by
                    cases hcq : c0 == '\n'
                    · rfl
                    · exfalso
                      rw [beq_iff_eq] at hcq
                      subst hcq
                      simp [pyIsSpace] at hps
                  simp [wsDotSearch, hh, hc0n, hc]
      · next hcontr => exact absurd hcond hcontr

theorem assemble_letters :
    ∀ (ls : List String) (cur : Option Answer) (acc : List Answer),
      (assembleLoop ls cur acc).map (fun a => a.letter) =
        acc.map (fun a => a.letter) ++ cur.toList.map (fun a => a.letter) ++
          ls.filterMap letterOf
  | [], cur, acc => by cases cur <;> simp [assembleLoop]
  | line :: rest, cur, acc => by
      cases hm : letterLineMatch line with
      | some p =>
          obtain ⟨ch, tp⟩ := p
          have ih := assemble_letters rest (some ⟨ch, tp, ch == 'A'⟩) (acc ++ cur.toList)
          simp only [assembleLoop, hm]
          rw [ih]
          have hlo : letterOf line = some ch := by simp [letterOf, hm]
          rw [List.filterMap_cons, hlo]
          cases cur <;> simp
      | none =>
          have hlo : letterOf line = none := by simp [letterOf, hm]
          cases cur with
          | none =>
              have ih := assemble_letters rest none acc
              simp only [assembleLoop, hm]
              rw [ih, List.filterMap_cons, hlo]
          | some a =>
              simp only [assembleLoop, hm]
              rw [List.filterMap_cons, hlo]
              by_cases hstrip : (pyStripL line.data).isEmpty = true
              · rw [if_neg (by simp [hstrip])]
                exact assemble_letters rest (some a) acc
              · rw [if_pos (by simp [Bool.not_eq_true] at hstrip; simp [hstrip])]
                by_cases hhdr : isHdrB line = true
                · rw [if_pos hhdr]
                  exact assemble_letters rest (some a) acc
                · rw [if_neg hhdr]
                  exact assemble_letters rest
                    (some ⟨a.letter, a.text ++ " " ++ line, a.correct⟩) acc

theorem assemble_correct :
    ∀ (ls : List String) (cur : Option Answer) (acc : List Answer),
      (∀ x ∈ acc, x.correct = (x.letter == 'A')) →
      (∀ x, cur = some x → x.correct = (x.letter == 'A')) →
      ∀ x ∈ assembleLoop ls cur acc, x.correct = (x.letter == 'A')
  | [], cur, acc, hacc, hcur => by
      intro x hx
      simp only [assembleLoop] at hx
      rcases List.mem_append.mp hx with h | h
      · exact hacc x h
      · cases cur with
        | none => simp at h
        | some a =>
            have : x = a := by simpa using h
            subst this
            exact hcur x rfl
  | line :: rest, cur, acc, hacc, hcur => by
      intro x hx
      cases hm : letterLineMatch line with
      | some p =>
          obtain ⟨ch, tp⟩ := p
          simp only [assembleLoop, hm] at hx
          refine assemble_correct rest (some ⟨ch, tp, ch == 'A'⟩) (acc ++ cur.toList) ?_ ?_ x hx
          · intro y hy
            rcases List.mem_append.mp hy with h | h
            · exact hacc y h
            · cases cur with
              | none => simp at h
              | some a =>
                  have : y = a := by simpa using h
                  subst this
                  exact hcur y rfl
          · intro y hy
            injection hy with hy
            subst hy
            rfl
      | none =>
          cases cur with
          | none =>
              simp only [assembleLoop, hm] at hx
              exact assemble_correct rest none acc hacc (by intro y hy; simp at hy) x hx
          | some a =>
              simp only [assembleLoop, hm] at hx
              by_cases hstrip : (pyStripL line.data).isEmpty = true
              · rw [if_neg (by simp [hstrip])] at hx
                exact assemble_correct rest (some a) acc hacc hcur x hx
              · rw [if_pos (by simp [Bool.not_eq_true] at hstrip; simp [hstrip])] at hx
                by_cases hhdr : isHdrB line = true
                · rw [if_pos hhdr] at hx
                  exact assemble_correct rest (some a) acc hacc hcur x hx
                · rw [if_neg hhdr] at hx
                  refine assemble_correct rest
                    (some ⟨a.letter, a.text ++ " " ++ line, a.correct⟩) acc hacc ?_ x hx
                  intro y hy
                  injection hy with hy
                  subst hy
                  exact hcur a rfl

theorem lookahead_true_struct :
    ∀ (w : List String) (found : List (Char × String)) (sf : List Char),
      found.length + sf.length = 4 → lookaheadLoop w found sf = true →
      ∃ ext : List (Char × String), ext.map Prod.fst = sf ∧
        ((ext.map Prod.snd).Sublist w) ∧ ∀ p ∈ ext, detMatch p.1 p.2 = true
  | [], found, sf, hlen, htrue => by simp [lookaheadLoop] at htrue
  | line :: rest, found, sf, hlen, htrue => by
      cases sf with
      | nil =>
          simp only [lookaheadLoop] at htrue
          have htrue' : lookaheadLoop rest found [] = true := by
            split at htrue <;> exact htrue
          obtain ⟨ext, h1, h2, h3⟩ :=
            lookahead_true_struct rest found [] (by simpa using hlen) htrue'
          exact ⟨ext, h1, h2.cons line, h3⟩
      | cons ch sfRest =>
          simp only [lookaheadLoop] at htrue
          split at htrue
          · obtain ⟨ext, h1, h2, h3⟩ :=
              lookahead_true_struct rest found (ch :: sfRest) hlen htrue
            exact ⟨ext, h1, h2.cons line, h3⟩
          · by_cases hd : detMatch ch line = true
            · rw [if_pos hd] at htrue
              rcases found with _ | ⟨⟨x1, a1⟩, _ | ⟨⟨x2, a2⟩, _ | ⟨⟨x3, a3⟩, _ | ⟨⟨x4, a4⟩, f5⟩⟩⟩⟩
              · obtain ⟨ext, h1, h2, h3⟩ :=
                  lookahead_true_struct rest [(ch, line)] sfRest
                    (by simp only [List.length_nil, List.length_cons] at hlen ⊢; omega) htrue
                refine ⟨(ch, line) :: ext, ?_, ?_, ?_⟩
                · simp [h1]
                · exact List.cons_sublist_cons.mpr h2
                · intro p hp
                  rcases List.mem_cons.mp hp with hp | hp
                  · subst hp; exact hd
                  · exact h3 p hp
              · obtain ⟨ext, h1, h2, h3⟩ :=
                  lookahead_true_struct rest ([(x1, a1)] ++ [(ch, line)]) sfRest
                    (by simp only [List.length_append, List.length_nil, List.length_cons] at hlen ⊢; omega) htrue
                refine ⟨(ch, line) :: ext, ?_, ?_, ?_⟩
                · simp [h1]
                · exact List.cons_sublist_cons.mpr h2
                · intro p hp
                  rcases List.mem_cons.mp hp with hp | hp
                  · subst hp; exact hd
                  · exact h3 p hp
              · obtain ⟨ext, h1, h2, h3⟩ :=
                  lookahead_true_struct rest ([(x1, a1), (x2, a2)] ++ [(ch, line)]) sfRest
                    (by simp only [List.length_append, List.length_nil, List.length_cons] at hlen ⊢; omega) htrue
                refine ⟨(ch, line) :: ext, ?_, ?_, ?_⟩
                · simp [h1]
                · exact List.cons_sublist_cons.mpr h2
                · intro p hp
                  rcases List.mem_cons.mp hp with hp | hp
                  · subst hp; exact hd
                  · exact h3 p hp
              · -- found has three entries: either the heuristic rejects, which
                -- makes acceptance impossible, or the loop accepts here.
                have hsf : sfRest = [] := by
                  simp only [List.length_cons, List.length_nil] at hlen
                  have : sfRest.length = 0 := by omega
                  exact List.eq_nil_of_length_eq_zero this
                subst hsf
                have htrue2 : (if heurBad a1 a2 a3 line = true then
                    lookaheadLoop rest [] ['B', 'C', 'D'] else true) = true := htrue
                by_cases hb : heurBad a1 a2 a3 line = true
                · rw [if_pos hb] at htrue2
                  have := lookahead_false_short rest [] ['B', 'C', 'D'] (by simp)
                  rw [this] at htrue2
                  exact absurd htrue2 (by simp)
                · refine ⟨[(ch, line)], by simp, ?_, ?_⟩
                  · exact List.cons_sublist_cons.mpr (List.nil_sublist rest)
                  · intro p hp
                    rcases List.mem_cons.mp hp with hp | hp
                    · subst hp; exact hd
                    · simp at hp
              · obtain ⟨ext, h1, h2, h3⟩ :=
                  lookahead_true_struct rest
                    (((x1, a1) :: (x2, a2) :: (x3, a3) :: (x4, a4) :: f5) ++ [(ch, line)]) sfRest
                    (by simp only [List.length_append, List.length_nil, List.length_cons] at hlen ⊢; omega) htrue
                refine ⟨(ch, line) :: ext, ?_, ?_, ?_⟩
                · simp [h1]
                · exact List.cons_sublist_cons.mpr h2
                · intro p hp
                  rcases List.mem_cons.mp hp with hp | hp
                  · subst hp; exact hd
                  · exact h3 p hp
            · rw [if_neg hd] at htrue
              obtain ⟨ext, h1, h2, h3⟩ :=
                lookahead_true_struct rest found (ch :: sfRest) hlen htrue
              exact ⟨ext, h1, h2.cons line, h3⟩
theorem findAnswerStart_struct :
    ∀ (l : List String) (idx j : Nat), findAnswerStart idx l = some j →
      ∃ l1 line l2, l = l1 ++ line :: l2 ∧ j = idx + l1.length ∧
        detMatch 'A' line = true ∧
        lookaheadLoop (l2.take 19) [('A', line)] ['B', 'C', 'D'] = true
  | [], idx, j, h => by simp [findAnswerStart] at h
  | line :: rest, idx, j, h => by
      simp only [findAnswerStart] at h
      by_cases h1 : isHdrA line = true
      · rw [if_pos h1] at h
        obtain ⟨l1, line', l2, he, hj, hd, hl⟩ := findAnswerStart_struct rest (idx + 1) j h
        refine ⟨line :: l1, line', l2, by simp [he], ?_, hd, hl⟩
        simp only [List.length_cons]
        omega
      · rw [if_neg h1] at h
        by_cases h2 : detMatch 'A' line = true
        · rw [if_pos h2] at h
          by_cases h3 : lookaheadLoop (rest.take 19) [('A', line)] ['B', 'C', 'D'] = true
          · rw [if_pos h3] at h
            have hj : idx = j := by simpa using h
            exact ⟨[], line, rest, rfl, by simp [hj], h2, h3⟩
          · rw [if_neg h3] at h
            obtain ⟨l1, line', l2, he, hj, hd, hl⟩ := findAnswerStart_struct rest (idx + 1) j h
            refine ⟨line :: l1, line', l2, by simp [he], ?_, hd, hl⟩
            simp only [List.length_cons]
            omega
        · rw [if_neg h2] at h
          obtain ⟨l1, line', l2, he, hj, hd, hl⟩ := findAnswerStart_struct rest (idx + 1) j h
          refine ⟨line :: l1, line', l2, by simp [he], ?_, hd, hl⟩
          simp only [List.length_cons]
          omega
theorem blockAnswers_struct (b : String) (hlen : (blockAnswers b).length = 4) :
    (blockAnswers b).map (fun a => a.letter) = ['A', 'B', 'C', 'D'] ∧
      (blockAnswers b).map (fun a => a.correct) = [true, false, false, false] := by
  unfold blockAnswers at hlen ⊢
  cases hfa : findAnswerStart 0 (blockLines b) with
  | none =>
      exfalso
      unfold splitQA at hlen
      rw [hfa] at hlen
      simp [assembleLoop] at hlen
  | some k =>
      obtain ⟨l1, aline, l2, hLeq, hk, hdA, hlook⟩ :=
        findAnswerStart_struct (blockLines b) 0 k hfa
      have hdrop : (splitQA (blockLines b)).2 = aline :: l2 := by
        unfold splitQA
        rw [hfa]
        simp only
        rw [hLeq, hk]
        simp [List.drop_left]
      rw [hdrop] at hlen ⊢
      have hlen0 : (assembleLoop (aline :: l2) none []).length = 4 := by
        simpa using hlen
      have hlet := assemble_letters (aline :: l2) none []
      simp only [List.map_nil, List.nil_append, Option.toList] at hlet
      have hA : letterOf aline = some 'A' := detMatch_letterOf 'A' aline (by decide) hdA
      obtain ⟨ext, hfst, hsnd, hdet⟩ :=
        lookahead_true_struct (l2.take 19) [('A', aline)] ['B', 'C', 'D'] (by simp) hlook
      rcases ext with _ | ⟨⟨c1, s1⟩, _ | ⟨⟨c2, s2⟩, _ | ⟨⟨c3, s3⟩, tail⟩⟩⟩ <;>
        simp only [List.map_cons, List.map_nil, List.cons.injEq] at hfst
      · exact absurd hfst (by simp)
      · exact absurd hfst.2 (by simp)
      · exact absurd hfst.2.2 (by simp)
      · obtain ⟨rfl, rfl, rfl, htail⟩ := hfst
        have htail0 : tail = [] := by
          cases tail with
          | nil => rfl
          | cons p t => simp at htail
        subst htail0
        have hsnd' : ([s1, s2, s3] : List String).Sublist (l2.take 19) := by
          simpa using hsnd
        have hsub : ([s1, s2, s3] : List String).Sublist l2 :=
          hsnd'.trans (List.take_sublist 19 l2)
        have hB : letterOf s1 = some 'B' :=
          detMatch_letterOf 'B' s1 (by decide) (hdet ('B', s1) (by simp))
        have hC : letterOf s2 = some 'C' :=
          detMatch_letterOf 'C' s2 (by decide) (hdet ('C', s2) (by simp))
        have hD : letterOf s3 = some 'D' :=
          detMatch_letterOf 'D' s3 (by decide) (hdet ('D', s3) (by simp))
        have hfm3 : List.filterMap letterOf [s1, s2, s3] = ['B', 'C', 'D'] := by
          simp [List.filterMap_cons, hB, hC, hD]
        have hsubf : (['B', 'C', 'D'] : List Char).Sublist (l2.filterMap letterOf) := by
          rw [← hfm3]
          exact hsub.filterMap letterOf
        have hmaplen : (l2.filterMap letterOf).length = 3 := by
          have hh := congrArg List.length hlet
          rw [List.length_map, hlen0, List.filterMap_cons, hA] at hh
          simp only [List.length_cons] at hh
          omega
        have heq3 : (['B', 'C', 'D'] : List Char) = l2.filterMap letterOf :=
          hsubf.eq_of_length (by rw [hmaplen]; rfl)
        have hletters : (assembleLoop (aline :: l2) none []).map (fun a => a.letter) =
            ['A', 'B', 'C', 'D'] := by
          rw [hlet, List.filterMap_cons, hA, ← heq3]
        constructor
        · rw [List.map_map]
          exact hletters
        · have hcor : ∀ x ∈ assembleLoop (aline :: l2) none [],
              x.correct = (x.letter == 'A') :=
            assemble_correct _ none [] (by simp) (by intro y hy; simp at hy)
          obtain ⟨a1, a2, a3, a4, hA0⟩ :
              ∃ b1 b2 b3 b4, assembleLoop (aline :: l2) none [] = [b1, b2, b3, b4] := by
            rcases hA0 : assembleLoop (aline :: l2) none [] with
              _ | ⟨b1, _ | ⟨b2, _ | ⟨b3, _ | ⟨b4, brest⟩⟩⟩⟩ <;>
              rw [hA0] at hlen0 <;>
              simp only [List.length_cons, List.length_nil] at hlen0
            · omega
            · omega
            · omega
            · omega
            · have hb0 : brest = [] := List.eq_nil_of_length_eq_zero (by omega)
              subst hb0
              exact ⟨b1, b2, b3, b4, rfl⟩
          rw [hA0] at hletters hcor
          simp only [List.map_cons, List.map_nil, List.cons.injEq, and_true] at hletters
          obtain ⟨e1, e2, e3, e4⟩ := hletters
          have f1 : a1.correct = true := by rw [hcor a1 (by simp), e1]; decide
          have f2 : a2.correct = false := by rw [hcor a2 (by simp), e2]; decide
          have f3 : a3.correct = false := by rw [hcor a3 (by simp), e3]; decide
          have f4 : a4.correct = false := by rw [hcor a4 (by simp), e4]; decide
          rw [List.map_map, hA0]
          simp [f1, f2, f3, f4]
theorem processBlock_answers (n : Int) (b : String) (q : Question)
    (h : processBlock n b = Sum.inl q) :
    q.answers.map (fun a => a.letter) = ['A', 'B', 'C', 'D'] ∧
      q.answers.map (fun a => a.correct) = [true, false, false, false] := by
  unfold processBlock at h
  split at h
  · next hcond =>
      injection h with h
      subst h
      simp only [Bool.and_eq_true, beq_iff_eq, decide_eq_true_eq] at hcond
      exact blockAnswers_struct b hcond.1
  · next => exact absurd h (by simp)

/-- C1: every question record emitted by parse_azf_document has exactly
four answers, lettered A, B, C, D in that order without duplicates, and
the correct flag is true on the A option and false on B, C, D. -/
theorem c1_answers_invariant (text : String) (q : Question)
    (h : q ∈ (parse_azf_document text).1) :
    q.answers.length = 4 ∧
      q.answers.map (fun a => a.letter) = ['A', 'B', 'C', 'D'] ∧
      q.answers.map (fun a => a.correct) = [true, false, false, false] := by
  unfold parse_azf_document at h
  rw [mainLoop_fst] at h
  obtain ⟨p, hp, hrec⟩ := List.mem_filterMap.mp h
  unfold recOfPair at hrec
  cases hi : parseIntPy (pyStripL p.1.data).asString with
  | none =>
      simp only [hi] at hrec
      exact absurd hrec (by simp)
  | some n =>
      simp only [hi] at hrec
      cases hb : processBlock n p.2 with
      | inr s =>
          simp only [hb] at hrec
          exact absurd hrec (by simp)
      | inl q' =>
          simp only [hb, Option.some.injEq] at hrec
          subst hrec
          obtain ⟨h1, h2⟩ := processBlock_answers n p.2 q' hb
          refine ⟨?_, h1, h2⟩
          have hl := congrArg List.length h1
          simpa using hl

theorem c1_witness :
    ({ id := 1, question := "What is the capital?",
        answers := [⟨'A', "Paris", true⟩, ⟨'B', "London", false⟩,
                    ⟨'C', "Berlin", false⟩, ⟨'D', "Rome", false⟩] } : Question).answers.map
        (fun a => a.letter) = ['A', 'B', 'C', 'D'] :=
  (c1_answers_invariant "\n1 What is the capital?\nA Paris\nB London\nC Berlin\nD Rome\n"
    _ (by decide)).2.1
theorem c3_witness :
    (parse_azf_document "5 x\n5 y\n").1.length + (parse_azf_document "5 x\n5 y\n").2.length =
      segmentedBlockCount "5 x\n5 y\n" :=
  c3_amended "5 x\n5 y\n"

theorem c8_witness :
    expandAll (rangeCompress (missingIds [])) = missingIds [] :=
  (c8_missing_ids []).2

theorem c10_witness :
    (parse_azf_document "1 ab\n").1 = (blockPairs "1 ab\n").filterMap recOfPair :=
  c10_order.1 "1 ab\n"

end AZF
